import Mathlib

/-!
Verification development for the `intvschedule-epg` repository.

The Python sources are shallowly embedded as Lean definitions:
* instants are `Int` seconds since 1970-01-01T00:00:00Z (timezone-aware
  `datetime` values compare by instant, so `astimezone` is the identity here);
  `epg_to_json.py` works with naive datetimes, which use the same
  representation with the zone ignored;
* XML element streams are lists of records carrying the attribute / child
  values the scripts read (`iter_xml` / `ElementTree` specifics are not
  modelled); an `Option String` field is `None` / missing in Python;
* Python dicts are association lists with insertion-order semantics
  (`dictSet`, `dictGet?`, `progDictAppend`), Python sets are lists used only
  through membership;
* `list.sort(key=...)` (Timsort: stable, ascending) is `sortByKey`
  (stable insertion sort, ascending by the same key);
* strings are treated at ASCII granularity: `str.lower`, `\s`, `str.strip`
  are modelled on the ASCII characters they affect, which covers the
  channel-name and timestamp data these scripts process.
-/

namespace EPG

/-! ### Characters and strings (Python `str` operations, ASCII model) -/

/-- Python `str.lower()` on one character (ASCII range). -/
def pyLowerChar (c : Char) : Char :=
  if 65 ≤ c.toNat ∧ c.toNat ≤ 90 then Char.ofNat (c.toNat + 32) else c

/-- Python `str.lower()`. -/
def pyLower (s : String) : String := ⟨s.data.map pyLowerChar⟩

/-- Characters matched by Python's `\s` and stripped by `str.strip()`
(ASCII whitespace). -/
def isPySpace (c : Char) : Bool :=
  c = ' ' || c = '\t' || c = '\n' || c = '\r' || c = '\x0b' || c = '\x0c'

/-- Python `str.strip()`. -/
def pyStrip (s : String) : String :=
  ⟨((s.data.dropWhile isPySpace).reverse.dropWhile isPySpace).reverse⟩

/-- The separator class of `normalize_name`'s `re.sub(r"[\s\-\_\.]", "", s)`. -/
def isSepChar (c : Char) : Bool :=
  isPySpace c || c = '-' || c = '_' || c = '.'

/-- Python `s.replace("&", "and")` at the character-list level. -/
def expandAmp : List Char → List Char
  | [] => []
  | c :: cs => if c = '&' then 'a' :: 'n' :: 'd' :: expandAmp cs else c :: expandAmp cs

/-- Model of `fetch_epg.normalize_name`: lowercase, map `&` to `and`, drop
whitespace/hyphen/underscore/dot. -/
def normalize_name (s : String) : String :=
  ⟨(expandAmp (s.data.map pyLowerChar)).filter (fun c => !isSepChar c)⟩

/-- Model of `fetch_epg.base_name_no_hd`: `re.sub(r"hd$", "", norm)` removes one
trailing `"hd"`. -/
def base_name_no_hd (s : String) : String :=
  match s.data.reverse with
  | 'd' :: 'h' :: rest => ⟨rest.reverse⟩
  | _ => s

/-- Numeric uppercase test (`A`–`Z`), the class `str.lower()` maps away. -/
def isUpperChar (c : Char) : Bool :=
  decide (65 ≤ c.toNat) && decide (c.toNat ≤ 90)

/-- A character that can remain after `normalize_name`: not uppercase, not a
separator, not an ampersand. -/
def normalizedChar (c : Char) : Bool :=
  !isUpperChar c && !isSepChar c && !(c = '&')

/-! ### Calendar arithmetic and XMLTV timestamps

`datetime.strptime` with the formats used by the scripts.  Instants are
seconds since the epoch; `daysFromCivil` is the standard civil-calendar day
count (proleptic Gregorian), matching `datetime`'s arithmetic. -/

def isLeapYear (y : Int) : Bool :=
  (y % 4 == 0 && y % 100 != 0) || y % 400 == 0

def daysInMonth (y m : Int) : Int :=
  if m = 2 then (if isLeapYear y then 29 else 28)
  else if m = 4 ∨ m = 6 ∨ m = 9 ∨ m = 11 then 30
  else 31

/-- Days from 1970-01-01 to the civil date `y-m-d`. -/
def daysFromCivil (y m d : Int) : Int :=
  let y' := if m ≤ 2 then y - 1 else y
  let era := Int.fdiv y' 400
  let yoe := y' - era * 400
  let doy := Int.fdiv (153 * (m + (if 2 < m then -3 else 9)) + 2) 5 + d - 1
  let doe := yoe * 365 + Int.fdiv yoe 4 - Int.fdiv yoe 100 + doy
  era * 146097 + doe - 719468

def isDigitChar (c : Char) : Bool :=
  decide (48 ≤ c.toNat) && decide (c.toNat ≤ 57)

def natOfDigits (cs : List Char) : Nat :=
  cs.foldl (fun a c => a * 10 + (c.toNat - 48)) 0

/-- The `strptime` body `%Y%m%d%H%M%S`: exactly 14 digits, fields validated as
`datetime` construction validates them.  Result: naive seconds since epoch. -/
def parse14 (cs : List Char) : Option Int :=
  if cs.length = 14 ∧ cs.all isDigitChar then
    let y : Int := natOfDigits (cs.take 4)
    let mo : Int := natOfDigits ((cs.drop 4).take 2)
    let d : Int := natOfDigits ((cs.drop 6).take 2)
    let h : Int := natOfDigits ((cs.drop 8).take 2)
    let mi : Int := natOfDigits ((cs.drop 10).take 2)
    let s : Int := natOfDigits ((cs.drop 12).take 2)
    if 1 ≤ y ∧ 1 ≤ mo ∧ mo ≤ 12 ∧ 1 ≤ d ∧ d ≤ daysInMonth y mo ∧
        h ≤ 23 ∧ mi ≤ 59 ∧ s ≤ 59 then
      some (daysFromCivil y mo d * 86400 + h * 3600 + mi * 60 + s)
    else none
  else none

/-- The `strptime` directive `%z`: `Z`, or sign, two-digit hours, optional colon,
two-digit minutes, optional (colon and) two-digit seconds; the resulting
offset must be strictly less than 24 h (`datetime.timezone` limit).
Fractional seconds are not modelled (unused by the feeds).
Result: offset in seconds. -/
def parseOffset (cs : List Char) : Option Int :=
  match cs with
  | ['Z'] => some 0
  | sg :: h1 :: h2 :: rest2 =>
    if (sg = '+' ∨ sg = '-') ∧ isDigitChar h1 ∧ isDigitChar h2 then
      let hh := natOfDigits [h1, h2]
      let rest3 := match rest2 with
        | ':' :: r => r
        | r => r
      match rest3 with
      | m1 :: m2 :: rest4 =>
        if isDigitChar m1 ∧ isDigitChar m2 then
          let mm := natOfDigits [m1, m2]
          let secPart : Option Nat :=
            match rest4 with
            | [] => some 0
            | [s1, s2] =>
              if isDigitChar s1 ∧ isDigitChar s2 then some (natOfDigits [s1, s2]) else none
            | [':', s1, s2] =>
              if isDigitChar s1 ∧ isDigitChar s2 then some (natOfDigits [s1, s2]) else none
            | _ => none
          match secPart with
          | some ss =>
            let total : Int := (hh * 3600 + mm * 60 + ss : Nat)
            if total < 86400 then some (if sg = '-' then -total else total) else none
          | none => none
        else none
      | _ => none
    else none
  | _ => none

/-- Model of `datetime.strptime(s, "%Y%m%d%H%M%S %z")`: 14 digits, whitespace run
(`strptime` maps literal whitespace to `\s+`), UTC offset; full match.
Result: seconds since epoch, UTC. -/
def parseLayoutA (s : String) : Option Int :=
  match s.data.drop 14 with
  | c :: rest =>
    if isPySpace c then
      match parse14 (s.data.take 14), parseOffset ((c :: rest).dropWhile isPySpace) with
      | some base, some o => some (base - o)
      | _, _ => none
    else none
  | _ => none

/-- Model of `datetime.strptime(s, "%Y%m%d%H%M%S%z")`: 14 digits directly followed by
the UTC offset; full match.  Result: seconds since epoch, UTC. -/
def parseLayoutB (s : String) : Option Int :=
  match s.data.drop 14 with
  | [] => none
  | off =>
    match parse14 (s.data.take 14), parseOffset off with
    | some base, some o => some (base - o)
    | _, _ => none

/-! ### Python dicts as association lists -/

/-- Python `d[k]` lookup returning `None` on a missing key (`dict.get`). -/
def dictGet? [DecidableEq κ] (d : List (κ × α)) (k : κ) : Option α :=
  match d with
  | [] => none
  | (k', v) :: rest => if k' = k then some v else dictGet? rest k

/-- Python `dict.get(k, dflt)`. -/
def dictGetD [DecidableEq κ] (d : List (κ × α)) (k : κ) (dflt : α) : α :=
  (dictGet? d k).getD dflt

/-- Python `d[k] = v`: replace in place, else append (insertion-order dict). -/
def dictSet [DecidableEq κ] (d : List (κ × α)) (k : κ) (v : α) : List (κ × α) :=
  match d with
  | [] => [(k, v)]
  | (k', v') :: rest => if k' = k then (k', v) :: rest else (k', v') :: dictSet rest k v

/-- Python `d.setdefault(k, []).append(x)`. -/
def progDictAppend [DecidableEq κ] (d : List (κ × List α)) (k : κ) (x : α) :
    List (κ × List α) :=
  match d with
  | [] => [(k, [x])]
  | (k', l) :: rest =>
    if k' = k then (k', l ++ [x]) :: rest else (k', l) :: progDictAppend rest k x

/-! ### Data model (`fetch_epg.py`) -/

/-- A `<channel>` element as `parse_channels` reads it: `id` attribute,
`<display-name>` text, `<icon src>`.  `none` is a missing attribute /
element. -/
structure ChanElem where
  id : Option String
  displayName : Option String
  icon : Option String
deriving DecidableEq

/-- A `<programme>` element as the programme passes read it. -/
structure ProgElem where
  channel : Option String
  start : Option String
  stop : Option String
  title : Option String
  icon : Option String
deriving DecidableEq

structure ChannelMeta where
  id : String
  name : String
  logo : String
deriving DecidableEq

structure Programme where
  start_utc : Int
  end_utc : Int
  title : String
  show_logo : String
deriving DecidableEq

/-! ### `parse_channels` -/

/-- Python `name_index.setdefault(key, []).append(cid)`. -/
def indexAdd (d : List (String × List String)) (k cid : String) :
    List (String × List String) :=
  progDictAppend d k cid

/-- The key set `{n, base_name_no_hd(n)}` of `parse_channels`.  The two keys
are distinct dict entries, so the arbitrary Python set iteration order does
not affect any per-key list. -/
def chanKeys (n : String) : List String :=
  if base_name_no_hd n = n then [n] else [n, base_name_no_hd n]

def parseChannelsLoop :
    List ChanElem → List (String × ChannelMeta) × List (String × List String) →
    List (String × ChannelMeta) × List (String × List String)
  | [], acc => acc
  | e :: es, (byId, idx) =>
    let cid := pyStrip (e.id.getD "")
    if cid = "" then parseChannelsLoop es (byId, idx)
    else
      let display := pyStrip (e.displayName.getD "")
      let logo := pyStrip (e.icon.getD "")
      let byId' := dictSet byId cid ⟨cid, display, logo⟩
      let n := normalize_name display
      let idx' := (chanKeys n).foldl (fun d key => if key = "" then d else indexAdd d key cid) idx
      parseChannelsLoop es (byId', idx')

/-- Model of `fetch_epg.parse_channels`: id-keyed channel table and
normalized-name index. -/
def parse_channels (elems : List ChanElem) :
    List (String × ChannelMeta) × List (String × List String) :=
  parseChannelsLoop elems ([], [])

/-! ### `parse_programmes_for_ids` -/

/-- Timestamp handling of `parse_programmes_for_ids`: try layout
`"%Y%m%d%H%M%S %z"` on both attributes, on failure try `"%Y%m%d%H%M%S%z"`
on both, else the element is skipped. -/
def parseTsPair (startRaw stopRaw : String) : Option (Int × Int) :=
  match parseLayoutA startRaw, parseLayoutA stopRaw with
  | some s, some e => some (s, e)
  | _, _ =>
    match parseLayoutB startRaw, parseLayoutB stopRaw with
    | some s, some e => some (s, e)
    | _, _ => none

/-- One `<programme>` element to a `Programme` record (`none`: skipped). -/
def progOfElem (e : ProgElem) : Option Programme :=
  match parseTsPair ((e.start).getD "") ((e.stop).getD "") with
  | none => none
  | some (s, en) => some ⟨s, en, pyStrip ((e.title).getD ""), pyStrip ((e.icon).getD "")⟩

/-- Python `{cid: [] for cid in wanted_ids}`. -/
def initProgDict (wanted : List String) : List (String × List Programme) :=
  wanted.foldl (fun d cid => dictSet d cid []) []

def parseProgsLoop (wanted : List String) :
    List ProgElem → List (String × List Programme) → List (String × List Programme)
  | [], acc => acc
  | e :: es, acc =>
    let cid := pyStrip ((e.channel).getD "")
    if wanted.contains cid then
      match progOfElem e with
      | some p => parseProgsLoop wanted es (progDictAppend acc cid p)
      | none => parseProgsLoop wanted es acc
    else parseProgsLoop wanted es acc

/-- Stable ascending insertion by `key` (equal keys keep earlier elements
first), the behaviour of Python's `list.sort(key=...)`. -/
def insertByKey (key : α → Int) (a : α) : List α → List α
  | [] => [a]
  | b :: bs => if key b < key a then b :: insertByKey key a bs else a :: b :: bs

/-- Stable ascending sort by `key` (Python `list.sort(key=...)`). -/
def sortByKey (key : α → Int) : List α → List α
  | [] => []
  | a :: as => insertByKey key a (sortByKey key as)

/-- Model of `fetch_epg.parse_programmes_for_ids`: per wanted channel id, the parsed
programmes in document order, then each list sorted by `start_utc`. -/
def parse_programmes_for_ids (elems : List ProgElem) (wanted : List String) :
    List (String × List Programme) :=
  if wanted = [] then []
  else
    (parseProgsLoop wanted elems (initProgDict wanted)).map
      (fun kv => (kv.1, sortByKey (·.start_utc) kv.2))

/-- The lookup `progs_source.get(meta.id, [])` applied to the parsed table. -/
def progsFor (elems : List ProgElem) (wanted : List String) (cid : String) :
    List Programme :=
  dictGetD (parse_programmes_for_ids elems wanted) cid []

/-! ### `choose_channel_for_target` -/

/-- The ordered candidate keys `[t_norm, t_base, t_base+"hd", t_norm+"hd"]`. -/
def candidateKeys (targetName : String) : List String :=
  let tNorm := normalize_name targetName
  let tBase := base_name_no_hd tNorm
  [tNorm, tBase, tBase ++ "hd", tNorm ++ "hd"]

/-- The scan `ids = idx.get(c); if ids: return ids[0]` over the candidate list. -/
def scanIdx (idx : List (String × List String)) : List String → Option String
  | [] => none
  | c :: cs =>
    match dictGet? idx c with
    | some (cid :: _) => some cid
    | _ => scanIdx idx cs

/-- Whether `idx.get(c)` yields a non-empty id list (the truthiness test
`if ids:`). -/
def hasHit (idx : List (String × List String)) (c : String) : Bool :=
  match dictGet? idx c with
  | some (_ :: _) => true
  | _ => false

structure ChooseResult where
  src : String
  meta : Option ChannelMeta
  note : String
deriving DecidableEq

/-- Model of `fetch_epg.choose_channel_for_target`. -/
def choose_channel_for_target (targetName : String)
    (jio_by_id : List (String × ChannelMeta)) (jio_idx : List (String × List String))
    (tata_by_id : List (String × ChannelMeta)) (tata_idx : List (String × List String)) :
    ChooseResult :=
  match scanIdx jio_idx (candidateKeys targetName) with
  | some cid => ⟨"jio", dictGet? jio_by_id cid, "match-jio"⟩
  | none =>
    match scanIdx tata_idx (candidateKeys targetName) with
    | some cid => ⟨"tata", dictGet? tata_by_id cid, "match-tata"⟩
    | none => ⟨"none", none, "not-found"⟩

/-! ### Windows, overlap, formatting, row building (`main`) -/

/-- Model of `fetch_epg.overlaps`. -/
def overlaps (aStart aEnd bStart bEnd : Int) : Bool :=
  decide (aStart < bEnd) && decide (aEnd > bStart)

def istOffsetSecs : Int := 19800

/-- One of the 24 h windows of `local_day_window_ist`: `[startL, endL)` with
`endL = startL + 86400`, `startL` an IST midnight, `label` its ISO date. -/
structure DayWindow where
  startL : Int
  endL : Int
  label : String
deriving DecidableEq

/-- A formatted `"%I:%M %p"` value (the cosmetic zero-stripping of
`format_time_12h` does not change hour/minute/AM-PM content). -/
structure Time12 where
  hour : Nat
  minute : Nat
  pm : Bool
deriving DecidableEq

/-- Model of `fetch_epg.format_time_12h` applied to `instant.astimezone(IST)`. -/
def format_time_12h (t : Int) : Time12 :=
  let sod := ((t + istOffsetSecs) % 86400).toNat
  let h := sod / 3600
  let mi := (sod % 3600) / 60
  ⟨if h % 12 = 0 then 12 else h % 12, mi, decide (12 ≤ h)⟩

/-- Model of `datetime.strptime(r["start_time"], "%I:%M %p")`: the sort key `main`
uses is the minute-of-day recovered from the formatted label (the parsed
datetime has the fixed default date 1900-01-01). -/
def strptimeKey12 (tm : Time12) : Nat :=
  let h24 := if tm.pm then (if tm.hour = 12 then 12 else tm.hour + 12)
             else (if tm.hour = 12 then 0 else tm.hour)
  h24 * 60 + tm.minute

/-- One output row of `main` (the asset side-pipeline does not change row
content: `show_logo` stays the source URL). -/
structure Row where
  title : String
  start_time : Time12
  end_time : Time12
  show_logo : String
deriving DecidableEq

def rowOfProgramme (p : Programme) : Row :=
  ⟨p.title, format_time_12h p.start_utc, format_time_12h p.end_utc, p.show_logo⟩

/-- The programmes of `lst` kept by `main`'s per-row `overlaps` check
(instant comparisons; `astimezone` does not move instants). -/
def overlappingProgs (lst : List Programme) (dStart dEnd : Int) : List Programme :=
  lst.filter (fun p => overlaps p.start_utc p.end_utc dStart dEnd)

/-- The `main` per-day row construction: keep overlapping programmes, format,
then `rows.sort(key=lambda r: datetime.strptime(r["start_time"], "%I:%M %p"))`. -/
def buildRows (lst : List Programme) (dStart dEnd : Int) : List Row :=
  sortByKey (fun r => (strptimeKey12 r.start_time : Int))
    ((overlappingProgs lst dStart dEnd).map rowOfProgramme)

/-- The `main` per-day source selection: for a Jio-resolved target with no
overlapping primary entry and a nonempty fallback list, use the fallback
list for this day. -/
def selectDayList (src : String) (progsList fallbackList : List Programme)
    (w : DayWindow) : List Programme :=
  if src = "jio" &&
      !(progsList.any fun p => overlaps p.start_utc p.end_utc w.startL w.endL) &&
      !fallbackList.isEmpty
  then fallbackList else progsList

/-- One output JSON document of `main`. -/
structure DayRecord where
  channel_name : String
  channel_logo : String
  date : String
  programs : List Row
deriving DecidableEq

def placeholderRecord (t : String) (w : DayWindow) : DayRecord :=
  ⟨t, "", w.label, []⟩

/-- The two per-day records `main` writes for one target. -/
def recordsForTarget (t : String) (r : ChooseResult)
    (jioProg tataProg : List (String × List Programme))
    (today tomorrow : DayWindow) : List DayRecord :=
  match r.meta with
  | none => [placeholderRecord t today, placeholderRecord t tomorrow]
  | some meta =>
    if r.src = "none" then [placeholderRecord t today, placeholderRecord t tomorrow]
    else
      let progsList := if r.src = "jio" then dictGetD jioProg meta.id []
                       else dictGetD tataProg meta.id []
      let fallbackList := if r.src = "jio" then dictGetD tataProg meta.id [] else []
      let channelName := if meta.name = "" then t else meta.name
      [⟨channelName, meta.logo, today.label,
          buildRows (selectDayList r.src progsList fallbackList today) today.startL today.endL⟩,
       ⟨channelName, meta.logo, tomorrow.label,
          buildRows (selectDayList r.src progsList fallbackList tomorrow) tomorrow.startL tomorrow.endL⟩]

/-! ### The whole run (`main`) -/

/-- The run inputs `main` reads: `filter.txt` lines (stripped, nonempty),
both feeds' channel and programme elements, and the two day windows
computed by `local_day_window_ist`. -/
structure RunInput where
  targets_raw : List String
  jioChans : List ChanElem
  jioProgElems : List ProgElem
  tataChans : List ChanElem
  tataProgElems : List ProgElem
  today : DayWindow
  tomorrow : DayWindow

/-- Case-insensitive de-duplication of targets, keeping first occurrences. -/
def dedupLoop (seen : List String) : List String → List String
  | [] => []
  | t :: ts =>
    if seen.contains (pyLower t) then dedupLoop seen ts
    else t :: dedupLoop (pyLower t :: seen) ts

def dedupTargets (raw : List String) : List String := dedupLoop [] raw

/-- The selection `main` stores in `selections[t.lower()]` (lowercased keys
are unique after de-duplication, so the stored and recomputed values
coincide). -/
def chooseForTarget (inp : RunInput) (t : String) : ChooseResult :=
  let jio := parse_channels inp.jioChans
  let tata := parse_channels inp.tataChans
  choose_channel_for_target t jio.1 jio.2 tata.1 tata.2

/-- The set `wanted_ids_by_source[srcName]`. -/
def wantedIds (inp : RunInput) (srcName : String) : List String :=
  (dedupTargets inp.targets_raw).filterMap (fun t =>
    let r := chooseForTarget inp t
    match r.meta with
    | some m => if r.src = srcName then some m.id else none
    | none => none)

/-- The two records `main` writes for one (de-duplicated) target. -/
def runRecordsForTarget (inp : RunInput) (t : String) : List DayRecord :=
  let jProg := parse_programmes_for_ids inp.jioProgElems (wantedIds inp "jio")
  let tProg := parse_programmes_for_ids inp.tataProgElems (wantedIds inp "tata")
  recordsForTarget t (chooseForTarget inp t) jProg tProg inp.today inp.tomorrow

/-- All records the run emits, in target order (file naming and the asset
side-pipeline are outside this model). -/
def mainOutputs (inp : RunInput) : List DayRecord :=
  (dedupTargets inp.targets_raw).flatMap (runRecordsForTarget inp)

end EPG

namespace EpgToJson

/-!
### `epg_to_json.py`

This pipeline works on naive datetimes (`strptime('%Y%m%d%H%M%S')` on the
part before the first `' '`, optionally shifted by +5:30); instants are the
same `Int` seconds, `date()` is the floor day number.
-/

/-- Model of `epg_to_json.parse_xmltv_time`: `time_str.split(' ')[0]` then strict
`%Y%m%d%H%M%S`; a missing attribute (`None`) or malformed string raises,
modelled as `none`. -/
def parse_xmltv_time (timeStr : Option String) (convertToIst : Bool) : Option Int :=
  match timeStr with
  | none => none
  | some s =>
    match EPG.parse14 (s.data.takeWhile (· ≠ ' ')) with
    | none => none
    | some t => some (if convertToIst then t + EPG.istOffsetSecs else t)

/-- One parsed programme dict of `epg_to_json.parse_epg_xml`. -/
structure JProg where
  show_name : String
  start_time : Int
  end_time : Int
  show_logo : String
deriving DecidableEq

/-- The programme loop of `parse_epg_xml`.  There is no per-element handler:
any raised `ValueError` propagates and aborts the whole parse (`none`). -/
def jProgsLoop (convertToIst : Bool) :
    List EPG.ProgElem → List (Option String × List JProg) →
    Option (List (Option String × List JProg))
  | [], acc => some acc
  | e :: es, acc =>
    let showName := match e.title with
      | some t => t
      | none => "Unknown Show"
    match parse_xmltv_time e.start convertToIst, parse_xmltv_time e.stop convertToIst with
    | some st, some en =>
      jProgsLoop convertToIst es
        (EPG.progDictAppend acc e.channel ⟨showName, st, en, (e.icon).getD ""⟩)
    | _, _ => none

/-- Model of `epg_to_json.parse_epg_xml`: channel table plus programme table, or
`none` when a programme element raises (caught only at the per-source level,
which then leaves that source empty). -/
def parse_epg_xml (chans : List EPG.ChanElem) (progs : List EPG.ProgElem)
    (convertToIst : Bool) :
    Option (List (Option String × (Option String × String)) ×
            List (Option String × List JProg)) :=
  let channels := chans.foldl (fun d c =>
    let displayName := match c.displayName with
      | some n => some n
      | none => c.id
    EPG.dictSet d c.id (displayName, (c.icon).getD "")) []
  match jProgsLoop convertToIst progs [] with
  | some programmes => some (channels, programmes)
  | none => none

/-- Python `datetime.date()` of a naive instant: its day number. -/
def jdate (t : Int) : Int := Int.fdiv t 86400

/-- The per-programme branch of `filter_programmes_by_date`: kept as-is when
the start date equals the target date; kept with start clipped to midnight
when it starts the previous day, ends on the target date and ends after
midnight; dropped otherwise. -/
def filterSelect (targetDate : Int) (progs : List JProg) : List JProg :=
  progs.filterMap (fun prog =>
    if jdate prog.start_time = targetDate then some prog
    else if jdate prog.start_time = targetDate - 1 ∧ jdate prog.end_time = targetDate then
      (if prog.end_time > targetDate * 86400 then
        some { prog with start_time := targetDate * 86400 }
      else none)
    else none)

/-- Model of `epg_to_json.filter_programmes_by_date` (`target_date` as a day
number; `midnight_dt = targetDate * 86400`). -/
def filter_programmes_by_date (progs : List JProg) (targetDate : Int) : List JProg :=
  EPG.sortByKey (·.start_time) (filterSelect targetDate progs)

/-- The date-equality inclusion condition `filter_programmes_by_date`
implements. -/
def jIncluded (p : JProg) (targetDate : Int) : Bool :=
  jdate p.start_time = targetDate ||
    (decide (jdate p.start_time = targetDate - 1) &&
     decide (jdate p.end_time = targetDate) &&
     decide (p.end_time > targetDate * 86400))

/-- The start adjustment `filter_programmes_by_date` applies to an included
programme. -/
def adjustStart (targetDate : Int) (p : JProg) : JProg :=
  if jdate p.start_time = targetDate then p
  else { p with start_time := targetDate * 86400 }

/-- Model of `epg_to_json.format_time` on a naive instant (zero-stripping is
cosmetic, as in `format_time_12h`). -/
def format_time (t : Int) : EPG.Time12 :=
  let sod := (t % 86400).toNat
  let h := sod / 3600
  let mi := (sod % 3600) / 60
  ⟨if h % 12 = 0 then 12 else h % 12, mi, decide (12 ≤ h)⟩

end EpgToJson

namespace Compressor

/-!
### `fetch_epg.save_webp_under_size` and `scrape_epg.download_and_compress_image`

The Pillow encoder is an oracle `encode`: for `save_webp_under_size` it maps
a downscale-factor index (into `DOWNSCALE_FACTORS = [1.0, 0.85, 0.75, 0.65,
0.55, 0.45, 0.35, 0.25]`) and a quality to an encoding, `none` when
`img.save` raises (that attempt is skipped).  `sz` is the byte length.
-/

def QUALITY_STEPS : List Nat := [85, 70, 60, 50, 40, 30, 20, 10]

/-- Indices into `DOWNSCALE_FACTORS`, iterated in order. -/
def SCALE_IDXS : List Nat := [0, 1, 2, 3, 4, 5, 6, 7]

variable {α : Type}

/-- The update test `size < best_len` (with `best_len` starting at infinity). -/
def strictlySmaller (sz : α → Nat) (best : Option α) (d : α) : Bool :=
  match best with
  | none => true
  | some b => decide (sz d < sz b)

/-- The inner quality loop at one scale: track the smallest encoding, return
(`Sum.inl`) the first encoding within budget. -/
def qualLoop (encode : Nat → Nat → Option α) (sz : α → Nat) (maxB si : Nat) :
    List Nat → Option α → α ⊕ Option α
  | [], best => Sum.inr best
  | q :: qs, best =>
    match encode si q with
    | none => qualLoop encode sz maxB si qs best
    | some d =>
      let best' := if strictlySmaller sz best d then some d else best
      if sz d ≤ maxB then Sum.inl d else qualLoop encode sz maxB si qs best'

/-- The outer downscale loop. -/
def scaleLoop (encode : Nat → Nat → Option α) (sz : α → Nat) (maxB : Nat) :
    List Nat → Option α → α ⊕ Option α
  | [], best => Sum.inr best
  | si :: sis, best =>
    match qualLoop encode sz maxB si QUALITY_STEPS best with
    | Sum.inl d => Sum.inl d
    | Sum.inr best' => scaleLoop encode sz maxB sis best'

/-- Model of `fetch_epg.save_webp_under_size`: the written bytes (if any) and the
"stayed under the limit" return value. -/
def save_webp_under_size (encode : Nat → Nat → Option α) (sz : α → Nat)
    (maxB : Nat) : Option α × Bool :=
  match scaleLoop encode sz maxB SCALE_IDXS none with
  | Sum.inl d => (some d, true)
  | Sum.inr best => (best, false)

/-- The encodings observed at scale `si` over qualities `qs`. -/
def observedAt (encode : Nat → Nat → Option α) (si : Nat) (qs : List Nat) : List α :=
  qs.filterMap (encode si)

/-- All encodings observed across the grid. -/
def observedAll (encode : Nat → Nat → Option α) (sis : List Nat) : List α :=
  sis.flatMap (fun si => observedAt encode si QUALITY_STEPS)

/-- Qualities attempted by `scrape_epg.download_and_compress_image`
(`quality = 85; while quality > 10: ...; quality -= 5`). -/
def SCRAPE_QUALITIES : List Nat := [85, 80, 75, 70, 65, 60, 55, 50, 45, 40, 35, 30, 25, 20, 15]

/-- The quality loop of `download_and_compress_image` at full size.
`some (some d)`: returned `d` within budget; `some none`: loop exhausted;
`none`: an exception aborted the function. -/
def scrapeQualityLoop (encodeFull : Nat → Option α) (sz : α → Nat) (maxB : Nat) :
    List Nat → Option (Option α)
  | [] => some none
  | q :: qs =>
    match encodeFull q with
    | none => none
    | some d => if sz d ≤ maxB then some (some d) else scrapeQualityLoop encodeFull sz maxB qs

/-- Model of `scrape_epg.download_and_compress_image` after a successful fetch and
decode: qualities 85..15 at full size, then a single `thumbnail((400,400))`
encode at quality 75, returned unconditionally.  `encodeThumb` is the
encoder after the resize. -/
def download_and_compress_image (encodeFull encodeThumb : Nat → Option α)
    (sz : α → Nat) (maxB : Nat) : Option α :=
  match scrapeQualityLoop encodeFull sz maxB SCRAPE_QUALITIES with
  | none => none
  | some (some d) => some d
  | some none =>
    match encodeThumb 75 with
    | none => none
    | some d => some d

/-- A `Prop`-level summary of how `best` evolves over a block of observed
encodings: `b'` is at most every observed size, improves on `b`, and comes
from `b` or the observations. -/
def MinOf (sz : α → Nat) (b b' : Option α) (obs : List α) : Prop :=
  (∀ d ∈ obs, ∀ r, b' = some r → sz r ≤ sz d) ∧
  (∀ r, b = some r → ∃ r', b' = some r' ∧ sz r' ≤ sz r) ∧
  (∀ r', b' = some r' → b = some r' ∨ r' ∈ obs) ∧
  (obs ≠ [] → b' ≠ none)

end Compressor

namespace Concrete

/-!
### Concrete run data for the closed theorems

One fixed pair of IST day windows (2025-06-07 / 2025-06-08) and the feed
fragments the counterexamples and witnesses evaluate. -/

open EPG

/-- Instant of an XMLTV timestamp in the `"%Y%m%d%H%M%S %z"` layout. -/
def tsA (s : String) : Int := (parseLayoutA s).getD 0

def w67 : DayWindow := ⟨tsA "20250607000000 +0530", tsA "20250608000000 +0530", "2025-06-07"⟩

def w68 : DayWindow := ⟨tsA "20250608000000 +0530", tsA "20250609000000 +0530", "2025-06-08"⟩

/-- A programme crossing IST midnight into 2025-06-07 (23:30–00:30). -/
def progA : Programme := ⟨tsA "20250606233000 +0530", tsA "20250607003000 +0530", "A", ""⟩

/-- A programme at 01:00–02:00 IST on 2025-06-07. -/
def progB : Programme := ⟨tsA "20250607010000 +0530", tsA "20250607020000 +0530", "B", ""⟩

/-- A syntactically valid programme element whose end equals its start. -/
def zeroLenElem : ProgElem :=
  ⟨some "c1", some "20250607120000 +0000", some "20250607120000 +0000", some "Z", none⟩

/-- Run input for C1: the target resolves to Jio (channel `j1`), Jio has
only a 2025-06-07 programme, and Tata carries the same normalized channel
name under its own id `t1` with a 2025-06-08 programme. -/
def c1Input : RunInput :=
  { targets_raw := ["Star Plus"]
    jioChans := [⟨some "j1", some "Star Plus", none⟩]
    jioProgElems :=
      [⟨some "j1", some "20250607180000 +0530", some "20250607190000 +0530", some "JShow", none⟩]
    tataChans := [⟨some "t1", some "Star Plus", none⟩]
    tataProgElems :=
      [⟨some "t1", some "20250608180000 +0530", some "20250608190000 +0530", some "TShow", none⟩]
    today := w67
    tomorrow := w68 }

/-- Day number of 2025-06-07. -/
def td67 : Int := daysFromCivil 2025 6 7

/-- A naive programme spanning 2025-06-05 23:00 through 2025-06-07 01:00:
it overlaps the 2025-06-07 window but starts two days earlier. -/
def jSpan : EpgToJson.JProg :=
  ⟨"S", daysFromCivil 2025 6 5 * 86400 + 23 * 3600, td67 * 86400 + 3600, ""⟩

/-- A naive programme crossing midnight into 2025-06-07 (23:30–00:30). -/
def jCross : EpgToJson.JProg := ⟨"C", td67 * 86400 - 1800, td67 * 86400 + 1800, ""⟩

/-- Well-formed naive programme elements and one with a malformed start. -/
def goodElem1 : ProgElem := ⟨some "c1", some "20250607120000", some "20250607130000", some "G1", none⟩

def badElem : ProgElem := ⟨some "c1", some "BAD", some "20250607150000", some "Bad", none⟩

def goodElem2 : ProgElem := ⟨some "c1", some "20250607140000", some "20250607150000", some "G2", none⟩

/-- Run input for the C8 witness: one target, both feeds empty. -/
def c8Input : RunInput :=
  { targets_raw := ["Foo"], jioChans := [], jioProgElems := [],
    tataChans := [], tataProgElems := [], today := w67, tomorrow := w68 }

/-- Full-size encoder for the C6 counterexample: every quality is over the
10240-byte budget, quality 15 being smallest at 12000 bytes. -/
def scrapeEncodeFull (q : Nat) : Option Nat := some (if q = 15 then 12000 else 20000)

/-- Thumbnail encoder for the C6 counterexample: 15000 bytes, still over
budget and larger than the smallest observed attempt. -/
def scrapeEncodeThumb (_q : Nat) : Option Nat := some 15000

/-- Encoder for the C6 witness: scale index 7 at quality 10 fits the
budget. -/
def webpEncode (si q : Nat) : Option Nat := some (if si = 7 ∧ q = 10 then 9000 else 20000)

end Concrete


/-!
## Theorems

Helper lemmas first, then one theorem per claim (with witnesses and
counterexamples as closed companions).
-/

namespace EPG

theorem mem_insertByKey {α : Type} (key : α → Int) (x a : α) (l : List α) :
    a ∈ insertByKey key x l ↔ a = x ∨ a ∈ l := by
  induction l with
  | nil => simp [insertByKey]
  | cons b bs ih =>
    simp only [insertByKey]
    split
    all_goals simp only [List.mem_cons, ih]
    all_goals tauto

theorem mem_sortByKey {α : Type} (key : α → Int) (a : α) (l : List α) :
    a ∈ sortByKey key l ↔ a ∈ l := by
  induction l with
  | nil => simp [sortByKey]
  | cons b bs ih => simp [sortByKey, mem_insertByKey, ih]

theorem dictGet?_progDictAppend {κ α : Type} [DecidableEq κ]
    (d : List (κ × List α)) (c k : κ) (p : α) :
    dictGet? (progDictAppend d c p) k =
      if k = c then some (dictGetD d c [] ++ [p]) else dictGet? d k := by
  induction d with
  | nil =>
    by_cases h : k = c
    · subst h
      simp [progDictAppend, dictGet?, dictGetD]
    · have h' : ¬ c = k := fun hh => h hh.symm
      simp [progDictAppend, dictGet?, dictGetD, h, h']
  | cons kv rest ih =>
    obtain ⟨k', l⟩ := kv
    by_cases hk'c : k' = c
    · subst hk'c
      by_cases hk'k : k' = k
      · subst hk'k
        simp [progDictAppend, dictGet?, dictGetD]
      · have hkk' : ¬ k = k' := fun hh => hk'k hh.symm
        simp [progDictAppend, dictGet?, dictGetD, hk'k, hkk']
    · by_cases hk'k : k' = k
      · subst hk'k
        have hkc : ¬ k' = c := hk'c
        simp [progDictAppend, dictGet?, dictGetD, hk'c]
      · simp only [progDictAppend, if_neg hk'c, dictGet?, if_neg hk'k, ih]
        by_cases hkc : k = c
        · subst hkc
          simp [dictGetD, dictGet?, if_neg hk'k]
        · simp [hkc]

theorem dictGetD_progDictAppend {κ α : Type} [DecidableEq κ]
    (d : List (κ × List α)) (c k : κ) (p : α) :
    dictGetD (progDictAppend d c p) k [] =
      if k = c then dictGetD d c [] ++ [p] else dictGetD d k [] := by
  unfold dictGetD
  rw [dictGet?_progDictAppend]
  split <;> simp [dictGetD]

/-- What one channel id accumulates over the programme loop. -/
theorem dictGetD_parseProgsLoop (wanted : List String) (k : String) :
    ∀ (es : List ProgElem) (acc : List (String × List Programme)),
    dictGetD (parseProgsLoop wanted es acc) k [] =
      dictGetD acc k [] ++
        (if wanted.contains k then
          es.filterMap (fun e => if pyStrip ((e.channel).getD "") = k then progOfElem e else none)
        else [])
  | [], acc => by simp [parseProgsLoop]
  | e :: es, acc => by
    simp only [parseProgsLoop]
    by_cases hw : wanted.contains (pyStrip ((e.channel).getD "")) = true
    · rw [if_pos hw]
      cases hp : progOfElem e with
      | some p =>
        rw [dictGetD_parseProgsLoop wanted k es (progDictAppend acc (pyStrip ((e.channel).getD "")) p)]
        rw [dictGetD_progDictAppend]
        by_cases hk : k = pyStrip ((e.channel).getD "")
        · rw [if_pos hk]
          have hwk : wanted.contains k = true := by rw [hk]; exact hw
          simp only [hwk, if_true, List.filterMap_cons, hk.symm, if_pos rfl, hp]
          simp [List.append_assoc]
        · rw [if_neg hk]
          have hne : ¬ pyStrip ((e.channel).getD "") = k := fun hh => hk hh.symm
          simp only [List.filterMap_cons, if_neg hne]
      | none =>
        rw [dictGetD_parseProgsLoop wanted k es acc]
        by_cases hk : pyStrip ((e.channel).getD "") = k
        · simp only [List.filterMap_cons, if_pos hk, hp]
        · simp only [List.filterMap_cons, if_neg hk]
    · rw [if_neg hw]
      rw [dictGetD_parseProgsLoop wanted k es acc]
      by_cases hwk : wanted.contains k = true
      · simp only [hwk, if_true, List.filterMap_cons]
        by_cases hk : pyStrip ((e.channel).getD "") = k
        · exact absurd (hk ▸ hwk) hw
        · rw [if_neg hk]
      · rw [if_neg hwk, if_neg hwk]

theorem dictGetD_allNil {κ : Type} [DecidableEq κ] (k : κ) :
    ∀ (d : List (κ × List Programme)), (∀ kv ∈ d, kv.2 = []) → dictGetD d k [] = []
  | [], _ => rfl
  | (k', v) :: rest, h => by
    have hv : v = [] := h (k', v) (by simp)
    by_cases hk : k' = k
    · simp [dictGetD, dictGet?, hk, hv]
    · simp only [dictGetD, dictGet?, if_neg hk]
      exact dictGetD_allNil k rest (fun kv hkv => h kv (by simp [hkv]))

theorem dictSet_allNil {κ : Type} [DecidableEq κ] (c : κ) :
    ∀ (d : List (κ × List Programme)), (∀ kv ∈ d, kv.2 = []) →
      ∀ kv ∈ dictSet d c [], kv.2 = []
  | [], _ => by simp [dictSet]
  | (k', v) :: rest, h => by
    simp only [dictSet]
    split
    · intro kv hkv
      rcases List.mem_cons.mp hkv with h1 | h2
      · simp [h1]
      · exact h kv (by simp [h2])
    · intro kv hkv
      rcases List.mem_cons.mp hkv with h1 | h2
      · exact h kv (by simp [h1])
      · exact dictSet_allNil c rest (fun kv' hkv' => h kv' (by simp [hkv'])) kv h2

theorem initProgDict_allNil (wanted : List String) :
    ∀ kv ∈ initProgDict wanted, kv.2 = [] := by
  unfold initProgDict
  suffices h : ∀ (ws : List String) (d : List (String × List Programme)),
      (∀ kv ∈ d, kv.2 = []) →
      ∀ kv ∈ ws.foldl (fun d cid => dictSet d cid []) d, kv.2 = [] by
    exact h wanted [] (by simp)
  intro ws
  induction ws with
  | nil => intro d hd; simpa using hd
  | cons w ws ih =>
    intro d hd
    exact ih (dictSet d w []) (dictSet_allNil w d hd)

theorem dictGet?_map_values {κ : Type} [DecidableEq κ] {α β : Type}
    (f : α → β) (k : κ) :
    ∀ (d : List (κ × α)),
    dictGet? (d.map (fun kv => (kv.1, f kv.2))) k = (dictGet? d k).map f
  | [] => rfl
  | (k', v) :: rest => by
    by_cases hk : k' = k
    · simp [dictGet?, hk]
    · simp only [List.map_cons, dictGet?, if_neg hk]
      exact dictGet?_map_values f k rest

/-- Characterization of `parse_programmes_for_ids` through the lookup
`main` performs: the parsed, document-ordered, start-sorted programmes of a
wanted channel id; `[]` otherwise. -/
theorem progsFor_eq (elems : List ProgElem) (wanted : List String) (cid : String) :
    progsFor elems wanted cid =
      if wanted.contains cid then
        sortByKey (·.start_utc)
          (elems.filterMap (fun e =>
            if pyStrip ((e.channel).getD "") = cid then progOfElem e else none))
      else [] := by
  unfold progsFor parse_programmes_for_ids
  split
  · next hw =>
    subst hw
    simp [dictGetD, dictGet?]
  · next hw =>
    have hmap : dictGetD
        ((parseProgsLoop wanted elems (initProgDict wanted)).map
          (fun kv => (kv.1, sortByKey (·.start_utc) kv.2))) cid [] =
        sortByKey (·.start_utc)
          (dictGetD (parseProgsLoop wanted elems (initProgDict wanted)) cid []) := by
      unfold dictGetD
      rw [dictGet?_map_values]
      cases dictGet? (parseProgsLoop wanted elems (initProgDict wanted)) cid <;> simp [sortByKey]
    rw [hmap, dictGetD_parseProgsLoop wanted cid elems (initProgDict wanted),
        dictGetD_allNil cid (initProgDict wanted) (initProgDict_allNil wanted)]
    split <;> simp [sortByKey]

end EPG
namespace EPG

theorem charToNat_ofNat (n : Nat) (h : n.isValidChar) : (Char.ofNat n).toNat = n := by
  simp only [Char.ofNat, h, dite_true, Char.ofNatAux, Char.toNat]
  simp [UInt32.toNat]

theorem pyLowerChar_not_upper (c : Char) : isUpperChar (pyLowerChar c) = false := by
  unfold pyLowerChar isUpperChar
  split
  · next h =>
    have hv : (c.toNat + 32).isValidChar := Or.inl (by omega)
    rw [charToNat_ofNat _ hv]
    have h90 : ¬ (c.toNat + 32 ≤ 90) := by omega
    simp [h90]
  · next h =>
    by_cases h1 : 65 ≤ c.toNat
    · have h2 : ¬ c.toNat ≤ 90 := fun h2 => h ⟨h1, h2⟩
      simp [h2]
    · simp [h1]

theorem pyLowerChar_fix (c : Char) (h : isUpperChar c = false) : pyLowerChar c = c := by
  unfold pyLowerChar
  rw [if_neg]
  intro hc
  unfold isUpperChar at h
  rcases hc with ⟨h1, h2⟩
  simp [h1, h2] at h

theorem pyLowerChar_idem (c : Char) : pyLowerChar (pyLowerChar c) = pyLowerChar c :=
  pyLowerChar_fix _ (pyLowerChar_not_upper c)

theorem mem_expandAmp (c : Char) :
    ∀ (l : List Char), c ∈ expandAmp l → c = 'a' ∨ c = 'n' ∨ c = 'd' ∨ c ∈ l
  | [], h => by simp [expandAmp] at h
  | b :: bs, h => by
    simp only [expandAmp] at h
    split at h
    · rcases List.mem_cons.mp h with h1 | h1
      · tauto
      rcases List.mem_cons.mp h1 with h2 | h2
      · tauto
      rcases List.mem_cons.mp h2 with h3 | h3
      · tauto
      · rcases mem_expandAmp c bs h3 with h4 | h4 | h4 | h4 <;> simp [h4]
    · rcases List.mem_cons.mp h with h1 | h1
      · simp [h1]
      · rcases mem_expandAmp c bs h1 with h4 | h4 | h4 | h4 <;> simp [h4]

theorem amp_not_mem_expandAmp : ∀ (l : List Char), '&' ∉ expandAmp l
  | [] => by simp [expandAmp]
  | b :: bs => by
    simp only [expandAmp]
    split
    · next hb =>
      simp only [List.mem_cons]
      push_neg
      exact ⟨by decide, by decide, by decide, amp_not_mem_expandAmp bs⟩
    · next hb =>
      simp only [List.mem_cons]
      push_neg
      exact ⟨fun hh => hb hh.symm, amp_not_mem_expandAmp bs⟩

theorem expandAmp_of_not_mem : ∀ (l : List Char), '&' ∉ l → expandAmp l = l
  | [], _ => rfl
  | b :: bs, h => by
    have hb : ¬ b = '&' := fun hh => h (by simp [hh])
    simp only [expandAmp, if_neg hb]
    rw [expandAmp_of_not_mem bs (fun hh => h (by simp [hh]))]

theorem map_id_of_fix {α : Type} (f : α → α) :
    ∀ (l : List α), (∀ a ∈ l, f a = a) → l.map f = l
  | [], _ => rfl
  | a :: as, h => by
    simp only [List.map_cons]
    rw [h a (by simp), map_id_of_fix f as (fun b hb => h b (by simp [hb]))]

theorem normalize_name_chars (s : String) :
    ∀ c ∈ (normalize_name s).data, pyLowerChar c = c ∧ normalizedChar c = true := by
  intro c hc
  have hc' : c ∈ (expandAmp (s.data.map pyLowerChar)).filter (fun c => !isSepChar c) := hc
  have hmem := (List.mem_filter.mp hc').1
  have hsep : (!isSepChar c) = true := (List.mem_filter.mp hc').2
  have hamp : ¬ c = '&' := by
    intro hh
    exact amp_not_mem_expandAmp _ (hh ▸ hmem)
  have hfix : pyLowerChar c = c ∧ isUpperChar c = false := by
    rcases mem_expandAmp c _ hmem with h1 | h1 | h1 | h1
    · subst h1; exact ⟨by decide, by decide⟩
    · subst h1; exact ⟨by decide, by decide⟩
    · subst h1; exact ⟨by decide, by decide⟩
    · rcases List.mem_map.mp h1 with ⟨c0, _, hc0⟩
      subst hc0
      exact ⟨pyLowerChar_idem c0, pyLowerChar_not_upper c0⟩
  refine ⟨hfix.1, ?_⟩
  unfold normalizedChar
  simp [hfix.2, hsep, hamp]

/-- Claim C10: `normalize_name` is idempotent, and its output contains no
uppercase letter, no whitespace/hyphen/underscore/dot separator, and no
ampersand.  (Characters that are neither cased nor separators, e.g. digits,
pass through unchanged.) -/
theorem c10_normalize_idempotent (s : String) :
    normalize_name (normalize_name s) = normalize_name s ∧
    (normalize_name s).data.all normalizedChar = true := by
  have hchars := normalize_name_chars s
  constructor
  · show normalize_name ⟨(expandAmp (s.data.map pyLowerChar)).filter (fun c => !isSepChar c)⟩ =
      normalize_name s
    unfold normalize_name
    have hdata : (normalize_name s).data =
        (expandAmp (s.data.map pyLowerChar)).filter (fun c => !isSepChar c) := rfl
    rw [← hdata]
    rw [map_id_of_fix pyLowerChar _ (fun c hc => (hchars c hc).1)]
    rw [expandAmp_of_not_mem _ (fun hmem => by
      have := (hchars '&' hmem).2
      simp [normalizedChar] at this)]
    rw [List.filter_eq_self.mpr (fun c hc => by
      have h2 := (hchars c hc).2
      unfold normalizedChar at h2
      simp only [Bool.and_eq_true, Bool.not_eq_true'] at h2
      simp [h2.1.2])]
  · rw [List.all_eq_true]
    intro c hc
    exact (hchars c hc).2

theorem scanIdx_eq_none_iff (idx : List (String × List String)) :
    ∀ (cs : List String), scanIdx idx cs = none ↔ ∀ c ∈ cs, hasHit idx c = false
  | [] => by simp [scanIdx]
  | c :: cs => by
    simp only [scanIdx, hasHit]
    cases hg : dictGet? idx c with
    | none =>
      simp only [List.mem_cons]
      rw [scanIdx_eq_none_iff idx cs]
      constructor
      · rintro h d (rfl | hd)
        · simp [hasHit, hg]
        · exact h d hd
      · intro h d hd
        exact h d (Or.inr hd)
    | some l =>
      cases l with
      | nil =>
        simp only [List.mem_cons]
        rw [scanIdx_eq_none_iff idx cs]
        constructor
        · rintro h d (rfl | hd)
          · simp [hasHit, hg]
          · exact h d hd
        · intro h d hd
          exact h d (Or.inr hd)
      | cons x xs =>
        simp only [List.mem_cons]
        constructor
        · intro h
          exact absurd h (by simp)
        · intro h
          have := h c (Or.inl rfl)
          simp [hasHit, hg] at this

/-- Claim C7: Resolution generates the candidate keys
`[norm, base, base ++ "hd", norm ++ "hd"]` in that order; a target with no
Jio hit but a Tata hit resolves to `"tata"`; and `"none"` is returned
exactly when no source/key combination matches. -/
theorem c7_resolution_order (targetName : String)
    (jio_by_id tata_by_id : List (String × ChannelMeta))
    (jio_idx tata_idx : List (String × List String)) :
    candidateKeys targetName =
      [normalize_name targetName, base_name_no_hd (normalize_name targetName),
       base_name_no_hd (normalize_name targetName) ++ "hd",
       normalize_name targetName ++ "hd"] ∧
    ((∀ c ∈ candidateKeys targetName, hasHit jio_idx c = false) →
      (∃ c ∈ candidateKeys targetName, hasHit tata_idx c = true) →
      (choose_channel_for_target targetName jio_by_id jio_idx tata_by_id tata_idx).src = "tata") ∧
    ((choose_channel_for_target targetName jio_by_id jio_idx tata_by_id tata_idx).src = "none" ↔
      ∀ c ∈ candidateKeys targetName, hasHit jio_idx c = false ∧ hasHit tata_idx c = false) := by
  refine ⟨rfl, ?_, ?_⟩
  · intro hjio ⟨c, hc, hh⟩
    unfold choose_channel_for_target
    rw [(scanIdx_eq_none_iff jio_idx (candidateKeys targetName)).mpr hjio]
    cases ht : scanIdx tata_idx (candidateKeys targetName) with
    | none =>
      have := (scanIdx_eq_none_iff tata_idx (candidateKeys targetName)).mp ht c hc
      rw [hh] at this
      exact absurd this (by decide)
    | some cid => rfl
  · unfold choose_channel_for_target
    cases hj : scanIdx jio_idx (candidateKeys targetName) with
    | some cid =>
      simp only
      constructor
      · intro h
        exact absurd h (by decide)
      · intro h
        have hn := (scanIdx_eq_none_iff jio_idx (candidateKeys targetName)).mpr
          (fun c hc => (h c hc).1)
        rw [hj] at hn
        exact absurd hn (by simp)
    | none =>
      cases ht : scanIdx tata_idx (candidateKeys targetName) with
      | some cid =>
        simp only
        constructor
        · intro h
          exact absurd h (by decide)
        · intro h
          have hn := (scanIdx_eq_none_iff tata_idx (candidateKeys targetName)).mpr
            (fun c hc => (h c hc).2)
          rw [ht] at hn
          exact absurd hn (by simp)
      | none =>
        simp only
        constructor
        · intro _
          intro c hc
          exact ⟨(scanIdx_eq_none_iff jio_idx _).mp hj c hc,
                 (scanIdx_eq_none_iff tata_idx _).mp ht c hc⟩
        · intro _
          trivial

/-- Witness for C7: a target present only in the Tata index resolves to
`"tata"`. -/
theorem c7_witness :
    (choose_channel_for_target "Star Plus" [] []
      [("t1", ⟨"t1", "Star Plus", ""⟩)] [("starplus", ["t1"])]).src = "tata" :=
  (c7_resolution_order "Star Plus" [] [("t1", ⟨"t1", "Star Plus", ""⟩)] []
    [("starplus", ["t1"])]).2.1 (by decide) ⟨"starplus", by decide, by decide⟩

end EPG
namespace Claims

open EPG Concrete

/-- Claim C1, code bug: End-to-end run on `c1Input`: the target resolves to
Jio; Tata carries the same normalized channel name (`starplus`, id `t1`)
with a programme overlapping tomorrow's window; yet tomorrow's emitted
schedule is empty, because `main` keys the fallback lookup by the Jio
channel id into a Tata table that is only parsed for Tata-resolved targets.
Today's schedule still comes from the primary. -/
theorem c1_same_identity_fallback_unused :
    mainOutputs c1Input =
      [⟨"Star Plus", "", "2025-06-07", [⟨"JShow", ⟨6, 0, true⟩, ⟨7, 0, true⟩, ""⟩]⟩,
       ⟨"Star Plus", "", "2025-06-08", []⟩] ∧
    (chooseForTarget c1Input "Star Plus").src = "jio" ∧
    dictGet? (parse_channels c1Input.tataChans).2 (normalize_name "Star Plus") = some ["t1"] ∧
    (progsFor c1Input.tataProgElems ["t1"] "t1").any
      (fun p => overlaps p.start_utc p.end_utc c1Input.tomorrow.startL c1Input.tomorrow.endL) =
      true := by decide

/-- Claim C2, counterexample: A programme element whose stop equals its start
survives `parse_programmes_for_ids` and its row appears in a day's
schedule: no `end > start` check exists. -/
theorem c2_zero_length_survives :
    progsFor [zeroLenElem] ["c1"] "c1" =
      [⟨tsA "20250607120000 +0000", tsA "20250607120000 +0000", "Z", ""⟩] ∧
    (progsFor [zeroLenElem] ["c1"] "c1").all (fun p => p.end_utc ≤ p.start_utc) = true ∧
    buildRows (progsFor [zeroLenElem] ["c1"] "c1") w67.startL w67.endL ≠ [] := by decide

/-- Claim C3, code bug: `main` sorts rows by re-parsing the formatted
12-hour label, which keeps only the time of day: the midnight-crossing
programme `progA` (true start 23:30 the previous day, the earliest) is
emitted *after* `progB` (01:00) in the 2025-06-07 window, although
`progA.start_utc < progB.start_utc`. -/
theorem c3_sorted_by_clock_label_not_true_start :
    buildRows [progA, progB] w67.startL w67.endL =
      [⟨"B", ⟨1, 0, false⟩, ⟨2, 0, false⟩, ""⟩,
       ⟨"A", ⟨11, 30, true⟩, ⟨12, 30, false⟩, ""⟩] ∧
    progA.start_utc < progB.start_utc := by decide

/-- Claim C4, counterexample: `epg_to_json.filter_programmes_by_date` drops a
programme that overlaps the window (start two days before the target date,
end inside it), so its inclusion is date-equality, not the half-open
overlap test. -/
theorem c4_date_equality_drops_overlap :
    EpgToJson.filter_programmes_by_date [jSpan] td67 = [] ∧
    overlaps jSpan.start_time jSpan.end_time (td67 * 86400) ((td67 + 1) * 86400) = true := by
  decide

/-- Claim C5, counterexample: In `fetch_epg.main` a 23:30–00:30 programme is
included in today's window but its displayed start is its true instant
11:30 PM, not the window start 12:00 AM: no clip-to-midnight happens
there. -/
theorem c5_fetch_does_not_clip :
    buildRows [progA] w67.startL w67.endL = [⟨"A", ⟨11, 30, true⟩, ⟨12, 30, false⟩, ""⟩] ∧
    format_time_12h w67.startL = ⟨12, 0, false⟩ ∧
    (⟨11, 30, true⟩ : Time12) ≠ ⟨12, 0, false⟩ := by decide

/-- Claim C6, counterexample: With every attempt over the 10240-byte budget,
`scrape_epg.download_and_compress_image` returns the final thumbnail
encoding (15000 bytes) even though a smaller encoding (12000 bytes at
quality 15) was observed: it does not return the smallest attempt. -/
theorem c6_scrape_not_smallest_observed :
    Compressor.download_and_compress_image scrapeEncodeFull scrapeEncodeThumb id 10240 =
      some 15000 ∧
    scrapeEncodeFull 15 = some 12000 ∧
    (15 : Nat) ∈ Compressor.SCRAPE_QUALITIES ∧
    (12000 : Nat) < 15000 := by decide

/-- Claim C9, counterexample: One malformed timestamp aborts
`epg_to_json.parse_epg_xml` for the whole document (`none`), discarding the
well-formed sibling elements that parse fine on their own. -/
theorem c9_one_bad_element_aborts_whole_parse :
    EpgToJson.parse_epg_xml [] [goodElem1, badElem, goodElem2] false = none ∧
    EpgToJson.parse_epg_xml [] [goodElem1, goodElem2] false =
      some ([], [(some "c1",
        [⟨"G1", td67 * 86400 + 12 * 3600, td67 * 86400 + 13 * 3600, ""⟩,
         ⟨"G2", td67 * 86400 + 14 * 3600, td67 * 86400 + 15 * 3600, ""⟩])]) :=
  ⟨by decide, by decide⟩

end Claims
namespace Claims2

open EPG

/-- Claim C2, amended: `parse_programmes_for_ids` drops only elements whose
timestamps fail to parse or whose channel id is not wanted; it performs no
`end > start` check: an element parsing to a programme with
`end_utc ≤ start_utc` is kept, and when it overlaps a window its row
appears in the emitted schedule. -/
theorem c2_parse_keeps_nonpositive_duration
    (elems : List ProgElem) (wanted : List String) (cid : String) (e : ProgElem)
    (p : Programme) (dS dE : Int)
    (hw : wanted.contains cid = true)
    (hc : pyStrip ((e.channel).getD "") = cid)
    (hp : progOfElem e = some p)
    (he : e ∈ elems)
    (_hneg : p.end_utc ≤ p.start_utc) :
    p ∈ progsFor elems wanted cid ∧
    (overlaps p.start_utc p.end_utc dS dE = true →
      rowOfProgramme p ∈ buildRows (progsFor elems wanted cid) dS dE) := by
  have hmem : p ∈ progsFor elems wanted cid := by
    rw [progsFor_eq, if_pos hw, mem_sortByKey]
    exact List.mem_filterMap.mpr ⟨e, he, by rw [if_pos hc]; exact hp⟩
  refine ⟨hmem, fun hov => ?_⟩
  unfold buildRows
  rw [mem_sortByKey]
  exact List.mem_map.mpr ⟨p, List.mem_filter.mpr ⟨hmem, hov⟩, rfl⟩

/-- Witness for C2: the zero-length programme of `zeroLenElem` is kept and
its row reaches the 2025-06-07 schedule. -/
theorem c2_witness :
    (⟨Concrete.tsA "20250607120000 +0000", Concrete.tsA "20250607120000 +0000", "Z", ""⟩ : Programme) ∈
      progsFor [Concrete.zeroLenElem] ["c1"] "c1" ∧
    (overlaps (Concrete.tsA "20250607120000 +0000") (Concrete.tsA "20250607120000 +0000")
        Concrete.w67.startL Concrete.w67.endL = true →
      rowOfProgramme ⟨Concrete.tsA "20250607120000 +0000", Concrete.tsA "20250607120000 +0000", "Z", ""⟩ ∈
        buildRows (progsFor [Concrete.zeroLenElem] ["c1"] "c1")
          Concrete.w67.startL Concrete.w67.endL) :=
  c2_parse_keeps_nonpositive_duration [Concrete.zeroLenElem] ["c1"] "c1" Concrete.zeroLenElem
    ⟨Concrete.tsA "20250607120000 +0000", Concrete.tsA "20250607120000 +0000", "Z", ""⟩
    Concrete.w67.startL Concrete.w67.endL
    (by decide) (by decide) (by decide) (by decide) (by decide)

/-- Claim C4, amended: In `scripts/fetch_epg.py` inclusion is exactly the
half-open overlap test `start < winEnd ∧ end > winStart`.  In
`epg_to_json.py` inclusion is instead the date-equality condition
`jIncluded` with starts rewritten by `adjustStart`: a programme is kept iff
its start date equals the window's date, or its start date is the previous
day, its end date equals the window's date and its end is after midnight. -/
theorem c4_overlap_in_fetch_date_equality_in_to_json :
    (∀ aS aE bS bE : Int, overlaps aS aE bS bE = true ↔ (aS < bE ∧ aE > bS)) ∧
    (∀ (lst : List Programme) (dS dE : Int) (p : Programme),
      p ∈ overlappingProgs lst dS dE ↔ p ∈ lst ∧ p.start_utc < dE ∧ p.end_utc > dS) ∧
    (∀ (progs : List EpgToJson.JProg) (td : Int),
      EpgToJson.filterSelect td progs =
        (progs.filter (fun p => EpgToJson.jIncluded p td)).map (EpgToJson.adjustStart td)) := by
  have hov : ∀ aS aE bS bE : Int, overlaps aS aE bS bE = true ↔ (aS < bE ∧ aE > bS) := by
    intro aS aE bS bE
    unfold overlaps
    simp [Bool.and_eq_true, decide_eq_true_iff]
  refine ⟨hov, ?_, ?_⟩
  · intro lst dS dE p
    unfold overlappingProgs
    rw [List.mem_filter, hov]
  · intro progs td
    induction progs with
    | nil => rfl
    | cons p ps ih =>
      simp only [EpgToJson.filterSelect, List.filterMap_cons] at ih ⊢
      by_cases h1 : EpgToJson.jdate p.start_time = td
      · have hinc : EpgToJson.jIncluded p td = true := by
          unfold EpgToJson.jIncluded
          simp [h1]
        have hadj : EpgToJson.adjustStart td p = p := by
          unfold EpgToJson.adjustStart
          rw [if_pos h1]
        simp only [if_pos h1, List.filter_cons, hinc, if_true, List.map_cons, hadj]
        rw [ih]
      · by_cases h2 : EpgToJson.jdate p.start_time = td - 1 ∧ EpgToJson.jdate p.end_time = td
        · by_cases h3 : p.end_time > td * 86400
          · have hinc : EpgToJson.jIncluded p td = true := by
              unfold EpgToJson.jIncluded
              simp [h1, h2.1, h2.2, h3]
            have hadj : EpgToJson.adjustStart td p = { p with start_time := td * 86400 } := by
              unfold EpgToJson.adjustStart
              rw [if_neg h1]
            simp only [if_neg h1, if_pos h2, if_pos h3, List.filter_cons, hinc, if_true,
              List.map_cons, hadj]
            rw [ih]
          · have hinc : EpgToJson.jIncluded p td = false := by
              unfold EpgToJson.jIncluded
              simp [h1, h3]
            simp only [if_neg h1, if_pos h2, if_neg h3, List.filter_cons, hinc]
            rw [ih]
            simp
        · have hinc : EpgToJson.jIncluded p td = false := by
            unfold EpgToJson.jIncluded
            rcases Decidable.not_and_iff_or_not.mp h2 with h2' | h2'
            · simp [h1, h2']
            · simp [h1, h2']
          simp only [if_neg h1, if_neg h2, List.filter_cons, hinc]
          rw [ih]
          simp

/-- Claim C5, amended: A programme beginning before the window and ending
inside it is included by both pipelines, but only `epg_to_json.py` clips
its displayed start to the window start (local midnight, formatted
12:00 AM); `scripts/fetch_epg.py` displays the true earlier instant, and no
clip policy parameter exists in either script. -/
theorem c5_midnight_crossing_included_clip_only_in_to_json :
    (∀ (progs : List EpgToJson.JProg) (td : Int) (p : EpgToJson.JProg),
      p ∈ progs → EpgToJson.jdate p.start_time = td - 1 → EpgToJson.jdate p.end_time = td →
      p.end_time > td * 86400 →
      ({ p with start_time := td * 86400 } : EpgToJson.JProg) ∈
        EpgToJson.filter_programmes_by_date progs td) ∧
    (∀ td : Int, EpgToJson.format_time (td * 86400) = ⟨12, 0, false⟩) ∧
    (∀ (lst : List Programme) (dS dE : Int) (p : Programme),
      p ∈ lst → overlaps p.start_utc p.end_utc dS dE = true →
      rowOfProgramme p ∈ buildRows lst dS dE ∧
        (rowOfProgramme p).start_time = format_time_12h p.start_utc) := by
  refine ⟨?_, ?_, ?_⟩
  · intro progs td p hmem h1 h2 h3
    unfold EpgToJson.filter_programmes_by_date
    rw [mem_sortByKey]
    refine List.mem_filterMap.mpr ⟨p, hmem, ?_⟩
    have h1' : ¬ EpgToJson.jdate p.start_time = td := by omega
    rw [if_neg h1', if_pos ⟨h1, h2⟩, if_pos h3]
  · intro td
    unfold EpgToJson.format_time
    rw [Int.mul_emod_left]
    rfl
  · intro lst dS dE p hmem hov
    constructor
    · unfold buildRows
      rw [mem_sortByKey]
      exact List.mem_map.mpr ⟨p, List.mem_filter.mpr ⟨hmem, hov⟩, rfl⟩
    · rfl

/-- Witness for C5: the concrete crosser `jCross` is included with its
start clipped to midnight of 2025-06-07. -/
theorem c5_witness :
    ({ Concrete.jCross with start_time := Concrete.td67 * 86400 } : EpgToJson.JProg) ∈
      EpgToJson.filter_programmes_by_date [Concrete.jCross] Concrete.td67 :=
  c5_midnight_crossing_included_clip_only_in_to_json.1 [Concrete.jCross] Concrete.td67
    Concrete.jCross (by decide) (by decide) (by decide) (by decide)

/-- Claim C9, amended: In `scripts/fetch_epg.py` a programme element with a
malformed start/stop timestamp, or with a missing (empty) channel id that
is not a wanted id, is skipped individually: deleting it from the document
leaves `parse_programmes_for_ids` unchanged, so parsing continues over the
remaining elements.  (`epg_to_json.py` instead aborts the whole parse, see
the counterexample.) -/
theorem c9_fetch_skips_malformed_elements
    (wanted : List String) (l1 l2 : List ProgElem) (e : ProgElem)
    (h : parseTsPair ((e.start).getD "") ((e.stop).getD "") = none ∨
         (pyStrip ((e.channel).getD "") = "" ∧ wanted.contains "" = false)) :
    parse_programmes_for_ids (l1 ++ e :: l2) wanted =
      parse_programmes_for_ids (l1 ++ l2) wanted := by
  unfold parse_programmes_for_ids
  split
  · rfl
  · congr 1
    suffices hloop : ∀ acc, parseProgsLoop wanted (l1 ++ e :: l2) acc =
        parseProgsLoop wanted (l1 ++ l2) acc from hloop _
    induction l1 with
    | nil =>
      intro acc
      simp only [List.nil_append, parseProgsLoop]
      rcases h with hts | ⟨hch, hcw⟩
      · have hpe : progOfElem e = none := by
          unfold progOfElem
          rw [hts]
        by_cases hcc : wanted.contains (pyStrip ((e.channel).getD "")) = true
        · rw [if_pos hcc, hpe]
        · rw [if_neg hcc]
      · rw [hch, if_neg (by rw [hcw]; exact Bool.false_ne_true)]
    | cons u us ih =>
      intro acc
      simp only [List.cons_append, parseProgsLoop]
      by_cases hcu : wanted.contains (pyStrip ((u.channel).getD "")) = true
      · rw [if_pos hcu, if_pos hcu]
        cases hpu : progOfElem u with
        | some p => exact ih _
        | none => exact ih _
      · rw [if_neg hcu, if_neg hcu]
        exact ih _

/-- Witness for C9: deleting the malformed `badElem` does not change the
parse result. -/
theorem c9_witness :
    parse_programmes_for_ids ([] ++ Concrete.badElem :: []) ["c1"] =
      parse_programmes_for_ids ([] ++ []) ["c1"] :=
  c9_fetch_skips_malformed_elements ["c1"] [] [] Concrete.badElem (Or.inl (by decide))

end Claims2
namespace Claims3

open EPG

theorem containsIffMem (l : List String) (a : String) : l.contains a = true ↔ a ∈ l := by
  simp [List.contains]

theorem dedupLoop_exists (t : String) :
    ∀ (ts : List String) (seen : List String),
      t ∈ ts → seen.contains (pyLower t) = false →
      ∃ t', t' ∈ dedupLoop seen ts ∧ pyLower t' = pyLower t
  | [], _, ht, _ => absurd ht (by simp)
  | u :: us, seen, ht, hs => by
    simp only [dedupLoop]
    by_cases hcu : seen.contains (pyLower u) = true
    · rw [if_pos hcu]
      rcases List.mem_cons.mp ht with rfl | hmem
      · rw [hs] at hcu
        exact absurd hcu (by simp)
      · exact dedupLoop_exists t us seen hmem hs
    · rw [if_neg hcu]
      rcases List.mem_cons.mp ht with rfl | hmem
      · exact ⟨t, by simp, rfl⟩
      · by_cases heq : pyLower t = pyLower u
        · exact ⟨u, by simp, heq.symm⟩
        · have hs' : (pyLower u :: seen).contains (pyLower t) = false := by
            rw [Bool.eq_false_iff]
            intro hmem'
            rcases List.mem_cons.mp ((containsIffMem _ _).mp hmem') with h1 | h1
            · exact heq h1
            · rw [(containsIffMem seen (pyLower t)).mpr h1] at hs
              exact absurd hs (by simp)
          obtain ⟨t', ht', hlow⟩ := dedupLoop_exists t us (pyLower u :: seen) hmem hs'
          exact ⟨t', by simp [ht'], hlow⟩

/-- Claim C8: Every line of the target list is represented in the output: a
(case-insensitively first) occurrence `t'` of it is processed, two records
(one per day) are emitted for `t'` into the run output, and when resolution
finds no channel those records carry the raw target name, an empty logo and
an empty programme list. -/
theorem c8_unresolved_targets_still_emitted (inp : RunInput) (t : String)
    (ht : t ∈ inp.targets_raw) :
    ∃ t', t' ∈ dedupTargets inp.targets_raw ∧ pyLower t' = pyLower t ∧
      (runRecordsForTarget inp t').length = 2 ∧
      (∀ r ∈ runRecordsForTarget inp t', r ∈ mainOutputs inp) ∧
      (((chooseForTarget inp t').src = "none" ∨ (chooseForTarget inp t').meta = none) →
        runRecordsForTarget inp t' =
          [⟨t', "", inp.today.label, []⟩, ⟨t', "", inp.tomorrow.label, []⟩]) := by
  obtain ⟨t', ht', hlow⟩ := dedupLoop_exists t inp.targets_raw [] ht rfl
  refine ⟨t', ht', hlow, ?_, ?_, ?_⟩
  · unfold runRecordsForTarget recordsForTarget
    cases (chooseForTarget inp t').meta with
    | none => rfl
    | some m =>
      by_cases hsrc : (chooseForTarget inp t').src = "none"
      · simp [hsrc]
      · simp [hsrc]
  · intro r hr
    exact List.mem_flatMap.mpr ⟨t', ht', hr⟩
  · intro hnone
    unfold runRecordsForTarget recordsForTarget
    cases hm : (chooseForTarget inp t').meta with
    | none => rfl
    | some m =>
      rcases hnone with hsrc | hmeta
      · simp [hsrc, placeholderRecord]
      · rw [hm] at hmeta
        exact absurd hmeta (by simp)

/-- Witness for C8: the unresolved target `"Foo"` still yields a
placeholder record for each day. -/
theorem c8_witness :
    ∃ t', t' ∈ dedupTargets Concrete.c8Input.targets_raw ∧ pyLower t' = pyLower "Foo" ∧
      (runRecordsForTarget Concrete.c8Input t').length = 2 ∧
      (∀ r ∈ runRecordsForTarget Concrete.c8Input t', r ∈ mainOutputs Concrete.c8Input) ∧
      (((chooseForTarget Concrete.c8Input t').src = "none" ∨
          (chooseForTarget Concrete.c8Input t').meta = none) →
        runRecordsForTarget Concrete.c8Input t' =
          [⟨t', "", Concrete.c8Input.today.label, []⟩,
           ⟨t', "", Concrete.c8Input.tomorrow.label, []⟩]) :=
  c8_unresolved_targets_still_emitted Concrete.c8Input "Foo" (by decide)

end Claims3
namespace Compressor

variable {α : Type}

theorem minOf_nil (sz : α → Nat) (b : Option α) : MinOf sz b b [] :=
  ⟨by simp, fun r hr => ⟨r, hr, le_refl _⟩, fun r' hr' => Or.inl hr',
   fun h => absurd rfl h⟩

theorem minOf_trans (sz : α → Nat) (b b' b'' : Option α) (o1 o2 : List α)
    (h1 : MinOf sz b b' o1) (h2 : MinOf sz b' b'' o2) :
    MinOf sz b b'' (o1 ++ o2) := by
  obtain ⟨h11, h12, h13, h14⟩ := h1
  obtain ⟨h21, h22, h23, h24⟩ := h2
  refine ⟨?_, ?_, ?_, ?_⟩
  · intro d hd r hr
    rcases List.mem_append.mp hd with hd1 | hd2
    · have hb' : b' ≠ none := h14 (List.ne_nil_of_mem hd1)
      obtain ⟨r1, hr1⟩ := Option.ne_none_iff_exists'.mp hb'
      have hle1 : sz r1 ≤ sz d := h11 d hd1 r1 hr1
      obtain ⟨r2, hr2, hle2⟩ := h22 r1 hr1
      rw [hr] at hr2
      have hrr : r = r2 := by injection hr2
      rw [hrr]
      omega
    · exact h21 d hd2 r hr
  · intro r hb
    obtain ⟨r', hb', hle⟩ := h12 r hb
    obtain ⟨r'', hb'', hle'⟩ := h22 r' hb'
    exact ⟨r'', hb'', le_trans hle' hle⟩
  · intro r' hr'
    rcases h23 r' hr' with hb' | ho2
    · rcases h13 r' hb' with hb | ho1
      · exact Or.inl hb
      · exact Or.inr (List.mem_append.mpr (Or.inl ho1))
    · exact Or.inr (List.mem_append.mpr (Or.inr ho2))
  · intro hne
    by_cases ho2 : o2 = []
    · subst ho2
      have ho1 : o1 ≠ [] := by simpa using hne
      have hb' : b' ≠ none := h14 ho1
      obtain ⟨r1, hr1⟩ := Option.ne_none_iff_exists'.mp hb'
      obtain ⟨r2, hr2, _⟩ := h22 r1 hr1
      simp [hr2]
    · exact h24 ho2

theorem minOf_step (sz : α → Nat) (b : Option α) (d : α) :
    MinOf sz b (if strictlySmaller sz b d then some d else b) [d] := by
  cases b with
  | none =>
    have hc : strictlySmaller sz none d = true := rfl
    rw [hc, if_pos rfl]
    refine ⟨?_, ?_, ?_, ?_⟩
    · intro e he r hr
      injection hr with hrd
      subst hrd
      have hed : e = d := by simpa using he
      rw [hed]
    · intro r hr
      cases hr
    · intro r' hr'
      injection hr' with hrd
      subst hrd
      simp
    · intro _
      simp
  | some b0 =>
    by_cases hlt : sz d < sz b0
    · have hc : strictlySmaller sz (some b0) d = true := by
        unfold strictlySmaller
        simpa using hlt
      rw [hc, if_pos rfl]
      refine ⟨?_, ?_, ?_, ?_⟩
      · intro e he r hr
        injection hr with hrd
        subst hrd
        have hed : e = d := by simpa using he
        rw [hed]
      · intro r hr
        injection hr with hrb
        subst hrb
        exact ⟨d, rfl, le_of_lt hlt⟩
      · intro r' hr'
        injection hr' with hrd
        subst hrd
        simp
      · intro _
        simp
    · have hc : strictlySmaller sz (some b0) d = false := by
        unfold strictlySmaller
        simpa using hlt
      rw [hc]
      simp only [Bool.false_eq_true, if_false]
      refine ⟨?_, ?_, ?_, ?_⟩
      · intro e he r hr
        injection hr with hrb
        subst hrb
        have hed : e = d := by simpa using he
        rw [hed]
        omega
      · intro r hr
        exact ⟨r, hr, le_refl _⟩
      · intro r' hr'
        exact Or.inl hr'
      · intro _
        simp

theorem observedAt_cons (encode : Nat → Nat → Option α) (si q : Nat) (qs : List Nat) :
    observedAt encode si (q :: qs) =
      (match encode si q with
        | some d => d :: observedAt encode si qs
        | none => observedAt encode si qs) := by
  unfold observedAt
  cases he : encode si q <;> simp [List.filterMap_cons, he]

theorem qualLoop_inr_minOf (encode : Nat → Nat → Option α) (sz : α → Nat) (maxB si : Nat) :
    ∀ (qs : List Nat) (best : Option α),
      (∀ d ∈ observedAt encode si qs, maxB < sz d) →
      ∃ best', qualLoop encode sz maxB si qs best = Sum.inr best' ∧
        MinOf sz best best' (observedAt encode si qs)
  | [], best, _ => ⟨best, rfl, minOf_nil sz best⟩
  | q :: qs, best, h => by
    cases he : encode si q with
    | none =>
      have hobs : observedAt encode si (q :: qs) = observedAt encode si qs := by
        rw [observedAt_cons, he]
      rw [hobs] at h
      obtain ⟨best', heq, hmin⟩ := qualLoop_inr_minOf encode sz maxB si qs best h
      refine ⟨best', ?_, by rw [hobs]; exact hmin⟩
      simp only [qualLoop, he]
      exact heq
    | some d =>
      have hobs : observedAt encode si (q :: qs) = d :: observedAt encode si qs := by
        rw [observedAt_cons, he]
      have hd : maxB < sz d := h d (by rw [hobs]; simp)
      have hnle : ¬ sz d ≤ maxB := by omega
      obtain ⟨best', heq, hmin⟩ :=
        qualLoop_inr_minOf encode sz maxB si qs
          (if strictlySmaller sz best d then some d else best)
          (fun d' hd' => h d' (by rw [hobs]; simp [hd']))
      refine ⟨best', ?_, ?_⟩
      · simp only [qualLoop, he, if_neg hnle]
        exact heq
      · rw [hobs]
        have := minOf_trans sz best _ best' [d] (observedAt encode si qs)
          (minOf_step sz best d) hmin
        simpa using this

theorem observedAll_cons (encode : Nat → Nat → Option α) (si : Nat) (sis : List Nat) :
    observedAll encode (si :: sis) =
      observedAt encode si QUALITY_STEPS ++ observedAll encode sis := by
  unfold observedAll
  simp

theorem scaleLoop_inr_minOf (encode : Nat → Nat → Option α) (sz : α → Nat) (maxB : Nat) :
    ∀ (sis : List Nat) (best : Option α),
      (∀ d ∈ observedAll encode sis, maxB < sz d) →
      ∃ best', scaleLoop encode sz maxB sis best = Sum.inr best' ∧
        MinOf sz best best' (observedAll encode sis)
  | [], best, _ => ⟨best, rfl, minOf_nil sz best⟩
  | si :: sis, best, h => by
    have hsplit := observedAll_cons encode si sis
    obtain ⟨b1, heq1, hmin1⟩ :=
      qualLoop_inr_minOf encode sz maxB si QUALITY_STEPS best
        (fun d hd => h d (by rw [hsplit]; exact List.mem_append.mpr (Or.inl hd)))
    obtain ⟨b2, heq2, hmin2⟩ :=
      scaleLoop_inr_minOf encode sz maxB sis b1
        (fun d hd => h d (by rw [hsplit]; exact List.mem_append.mpr (Or.inr hd)))
    refine ⟨b2, ?_, ?_⟩
    · simp only [scaleLoop, heq1]
      exact heq2
    · rw [hsplit]
      exact minOf_trans sz best b1 b2 _ _ hmin1 hmin2

theorem qualLoop_inl_le (encode : Nat → Nat → Option α) (sz : α → Nat) (maxB si : Nat) :
    ∀ (qs : List Nat) (best : Option α) (d : α),
      qualLoop encode sz maxB si qs best = Sum.inl d → sz d ≤ maxB
  | [], best, d, h => by simp [qualLoop] at h
  | q :: qs, best, d, h => by
    cases he : encode si q with
    | none =>
      simp only [qualLoop, he] at h
      exact qualLoop_inl_le encode sz maxB si qs best d h
    | some d' =>
      simp only [qualLoop, he] at h
      by_cases hle : sz d' ≤ maxB
      · rw [if_pos hle] at h
        injection h with h'
        subst h'
        exact hle
      · rw [if_neg hle] at h
        exact qualLoop_inl_le encode sz maxB si qs _ d h

theorem qualLoop_inl_of_exists (encode : Nat → Nat → Option α) (sz : α → Nat) (maxB si : Nat) :
    ∀ (qs : List Nat) (best : Option α),
      (∃ q ∈ qs, ∃ d, encode si q = some d ∧ sz d ≤ maxB) →
      ∃ r, qualLoop encode sz maxB si qs best = Sum.inl r
  | [], _, h => by simp at h
  | q :: qs, best, h => by
    cases he : encode si q with
    | none =>
      simp only [qualLoop, he]
      apply qualLoop_inl_of_exists encode sz maxB si qs best
      obtain ⟨q', hq', d, hd, hle⟩ := h
      rcases List.mem_cons.mp hq' with rfl | hmem
      · rw [he] at hd
        cases hd
      · exact ⟨q', hmem, d, hd, hle⟩
    | some d' =>
      simp only [qualLoop, he]
      by_cases hle' : sz d' ≤ maxB
      · rw [if_pos hle']
        exact ⟨d', rfl⟩
      · rw [if_neg hle']
        apply qualLoop_inl_of_exists encode sz maxB si qs _
        obtain ⟨q', hq', d, hd, hle⟩ := h
        rcases List.mem_cons.mp hq' with rfl | hmem
        · rw [he] at hd
          injection hd with h'
          rw [h'] at hle'
          exact absurd hle hle'
        · exact ⟨q', hmem, d, hd, hle⟩

theorem scaleLoop_inl_le (encode : Nat → Nat → Option α) (sz : α → Nat) (maxB : Nat) :
    ∀ (sis : List Nat) (best : Option α) (d : α),
      scaleLoop encode sz maxB sis best = Sum.inl d → sz d ≤ maxB
  | [], best, d, h => by simp [scaleLoop] at h
  | si :: sis, best, d, h => by
    simp only [scaleLoop] at h
    cases hq : qualLoop encode sz maxB si QUALITY_STEPS best with
    | inl d' =>
      rw [hq] at h
      cases h
      exact qualLoop_inl_le encode sz maxB si QUALITY_STEPS best d hq
    | inr best' =>
      rw [hq] at h
      exact scaleLoop_inl_le encode sz maxB sis best' d h

theorem scaleLoop_inl_of_exists (encode : Nat → Nat → Option α) (sz : α → Nat) (maxB : Nat) :
    ∀ (sis : List Nat) (best : Option α),
      (∃ si ∈ sis, ∃ q ∈ QUALITY_STEPS, ∃ d, encode si q = some d ∧ sz d ≤ maxB) →
      ∃ r, scaleLoop encode sz maxB sis best = Sum.inl r
  | [], _, h => by simp at h
  | si :: sis, best, h => by
    simp only [scaleLoop]
    cases hq : qualLoop encode sz maxB si QUALITY_STEPS best with
    | inl d' => exact ⟨d', rfl⟩
    | inr best' =>
      obtain ⟨si', hsi', hrest⟩ := h
      rcases List.mem_cons.mp hsi' with rfl | hmem
      · obtain ⟨r, hr⟩ := qualLoop_inl_of_exists encode sz maxB si' QUALITY_STEPS best hrest
        rw [hq] at hr
        cases hr
      · exact scaleLoop_inl_of_exists encode sz maxB sis best' ⟨si', hmem, hrest⟩

/-- Claim C6, amended: `fetch_epg.save_webp_under_size` iterates the
descending scale grid and, within each scale, the descending quality steps:
whenever some grid combination encodes within the budget it writes an
encoding within the budget and reports success, and when every observed
encoding is over budget it reports failure and writes the smallest
encoding observed across all attempts.  (`scrape_epg`'s
`download_and_compress_image` does not satisfy the best-effort clause; see
the counterexample.) -/
theorem c6_save_webp_budget_and_best_effort {α : Type} (encode : Nat → Nat → Option α)
    (sz : α → Nat) (maxB : Nat) :
    ((∃ si ∈ SCALE_IDXS, ∃ q ∈ QUALITY_STEPS, ∃ d, encode si q = some d ∧ sz d ≤ maxB) →
      ∃ r, save_webp_under_size encode sz maxB = (some r, true) ∧ sz r ≤ maxB) ∧
    ((∀ d ∈ observedAll encode SCALE_IDXS, maxB < sz d) →
      (save_webp_under_size encode sz maxB).2 = false ∧
      ∀ d ∈ observedAll encode SCALE_IDXS,
        ∃ r, (save_webp_under_size encode sz maxB).1 = some r ∧ sz r ≤ sz d ∧
          r ∈ observedAll encode SCALE_IDXS) := by
  constructor
  · intro hex
    obtain ⟨r, hr⟩ := scaleLoop_inl_of_exists encode sz maxB SCALE_IDXS none hex
    refine ⟨r, ?_, scaleLoop_inl_le encode sz maxB SCALE_IDXS none r hr⟩
    unfold save_webp_under_size
    rw [hr]
  · intro hover
    obtain ⟨best', heq, hmin⟩ := scaleLoop_inr_minOf encode sz maxB SCALE_IDXS none hover
    obtain ⟨h1, _h2, h3, h4⟩ := hmin
    constructor
    · unfold save_webp_under_size
      rw [heq]
    · intro d hd
      have hne : observedAll encode SCALE_IDXS ≠ [] := List.ne_nil_of_mem hd
      obtain ⟨r, hr⟩ := Option.ne_none_iff_exists'.mp (h4 hne)
      refine ⟨r, ?_, h1 d hd r hr, ?_⟩
      · unfold save_webp_under_size
        rw [heq, hr]
      · rcases h3 r hr with hnone | hobs
        · cases hnone
        · exact hobs

/-- Witness for C6: an encoder whose scale-7/quality-10 attempt fits the
10240-byte budget makes `save_webp_under_size` return within budget. -/
theorem c6_witness :
    ∃ r, save_webp_under_size Concrete.webpEncode id 10240 = (some r, true) ∧ id r ≤ 10240 :=
  (c6_save_webp_budget_and_best_effort Concrete.webpEncode id 10240).1
    ⟨7, by decide, 10, by decide, 9000, by decide, by decide⟩

end Compressor
